import Mathlib

/-!
# Verification of `read_FVCOM_results.py`

Shallow embedding of the two functions of `fvcom-py/read_FVCOM_results.py`:

* `readFVCOM`: opens a NetCDF dataset, resolves each declared dimension to a
  range string `0:len`, overrides the dimensions named in the caller's
  `clipDims` dict, and for every file variable whose name is in `varList`
  slices the variable's array by the resolved per-dimension specifications
  (looked up in the variable's own declared dimension order) and stores it
  under the variable's name.  Verbose output is modelled as a log list.
* `getSurfaceElevation`: allocates an uninitialized `(nt, len idx)` buffer
  with `np.empty` and copies input column `i` into output column `cnt` for
  every non-NaN entry `i` of `idx`.

Modelling decisions:

* A NetCDF dataset is a self-describing container: a list of named
  dimensions with extents and a list of named variables, each with its
  declared dimension tuple and its underlying array.
* The clip strings (`'0:100'`, `'[0, 400, 10000]'`) that the Python code
  pastes into an `eval`-ed slice expression are modelled by the `ClipVal`
  inductive (a half-open range or an explicit index list); `ClipVal.sel`
  gives the NumPy meaning of such a slice against an extent (a range is
  clamped to the extent, as NumPy slicing does).
* `np.empty` returns an *uninitialized* array, so `getSurfaceElevation`
  takes the buffer's arbitrary initial contents as an explicit argument
  `init`.  Floating values are modelled as `Option Int` where `none` plays
  the role of NaN when NaN-ness matters.
* The dictionary lookup `dims[d]` cannot fail on a well-formed NetCDF file
  (every dimension of a variable is declared in the file), so it is
  modelled totally with a default; theorems that depend on the looked-up
  value carry the corresponding well-formedness hypotheses.
* The `try: import ... except ImportError: raise ImportError(...)` guards
  are modelled by `Checked` wrappers taking a capability flag.
-/

set_option autoImplicit false

/-- A two-dimensional array of shape `(nt, nx)`; `data t j` is entry
`[t, j]`.  Models the NumPy 2-D `ndarray`s handled by
`getSurfaceElevation`. -/
structure Mat (α : Type) where
  nt : Nat
  nx : Nat
  data : Nat → Nat → α

/-- Column assignment `M[:, c] = col`, as in
`surfaceElevation[:,cnt] = Z[:,i]`. -/
def setCol {α : Type} (M : Mat α) (c : Nat) (col : Nat → α) : Mat α :=
  ⟨M.nt, M.nx, fun t j => if j = c then col t else M.data t j⟩

/-- One iteration of the loop `for cnt, i in enumerate(idx)`: if `i` is not
NaN (`some i`), copy `Z[:, i]` into column `cnt`; a NaN entry (`none`) is
skipped. -/
def elevStep {α : Type} (Z : Mat α) (M : Mat α) (p : Nat × Option Nat) : Mat α :=
  match p.2 with
  | some i => setCol M p.1 (fun t => Z.data t i)
  | none => M

/-- `getSurfaceElevation(Z, idx)`.  The output buffer is created by
`np.empty([nt, np.shape(idx)[0]])`, i.e. with *uninitialized* contents,
modelled by the explicit argument `init`; then the loop writes the columns
selected by the non-NaN entries of `idx`. -/
def getSurfaceElevation {α : Type} (Z : Mat α) (idx : List (Option Nat))
    (init : Nat → Nat → α) : Mat α :=
  (idx.enum).foldl (elevStep Z) ⟨Z.nt, idx.length, init⟩

theorem elevStep_nt {α : Type} (Z M : Mat α) (p : Nat × Option Nat) :
    (elevStep Z M p).nt = M.nt := by
  obtain ⟨c, o⟩ := p
  cases o <;> simp [elevStep, setCol]

theorem elevStep_nx {α : Type} (Z M : Mat α) (p : Nat × Option Nat) :
    (elevStep Z M p).nx = M.nx := by
  obtain ⟨c, o⟩ := p
  cases o <;> simp [elevStep, setCol]

theorem elevFold_nt {α : Type} (Z : Mat α) (l : List (Nat × Option Nat)) (M : Mat α) :
    (l.foldl (elevStep Z) M).nt = M.nt := by
  induction l generalizing M with
  | nil => rfl
  | cons p t ih => rw [List.foldl_cons, ih, elevStep_nt]

theorem elevFold_nx {α : Type} (Z : Mat α) (l : List (Nat × Option Nat)) (M : Mat α) :
    (l.foldl (elevStep Z) M).nx = M.nx := by
  induction l generalizing M with
  | nil => rfl
  | cons p t ih => rw [List.foldl_cons, ih, elevStep_nx]

/-- A column that no loop iteration targets is left untouched. -/
theorem elevFold_data_of_notMem {α : Type} (Z : Mat α) (l : List (Nat × Option Nat))
    (M : Mat α) (t c : Nat) (h : ∀ p ∈ l, p.1 ≠ c) :
    (l.foldl (elevStep Z) M).data t c = M.data t c := by
  induction l generalizing M with
  | nil => rfl
  | cons p tl ih =>
    rw [List.foldl_cons, ih _ (fun q hq => h q (List.mem_cons_of_mem _ hq))]
    obtain ⟨a, o⟩ := p
    have ha : a ≠ c := h (a, o) (List.mem_cons_self _ _)
    cases o <;> simp [elevStep, setCol, Ne.symm ha]

theorem enumFrom_fst_ge {α : Type} (l : List α) (n : Nat) :
    ∀ p ∈ List.enumFrom n l, n ≤ p.1 := by
  induction l generalizing n with
  | nil => intro p hp; cases hp
  | cons a tl ih =>
    intro p hp
    rcases List.mem_cons.mp hp with h | h
    · subst h; exact Nat.le_refl n
    · exact Nat.le_trans (Nat.le_succ n) (ih (n + 1) p h)

/-- A position of `idx` holding a valid index `j` ends up holding input
column `j` (later iterations write other columns only). -/
theorem elevFold_data_of_get_some {α : Type} (Z : Mat α) (idx : List (Option Nat)) :
    ∀ (n k : Nat) (M : Mat α) (t j : Nat), idx.get? k = some (some j) →
      ((List.enumFrom n idx).foldl (elevStep Z) M).data t (n + k) = Z.data t j := by
  induction idx with
  | nil => intro n k M t j h; cases h
  | cons a tl ih =>
    intro n k M t j h
    rw [List.enumFrom_cons, List.foldl_cons]
    cases k with
    | zero =>
      have ha : a = some j := by
        rw [List.get?_cons_zero] at h
        exact Option.some.inj h
      subst ha
      have hnot : ∀ p ∈ List.enumFrom (n + 1) tl, p.1 ≠ n := by
        intro p hp
        have := enumFrom_fst_ge tl (n + 1) p hp
        omega
      simp only [Nat.add_zero]
      rw [elevFold_data_of_notMem Z _ _ t n hnot]
      simp [elevStep, setCol]
    | succ k' =>
      rw [List.get?_cons_succ] at h
      have hidx : n + (k' + 1) = (n + 1) + k' := by omega
      rw [hidx]
      exact ih (n + 1) k' (elevStep Z M (n, a)) t j h

/-- A position of `idx` holding the NaN marker leaves its column at the
buffer's initial contents. -/
theorem elevFold_data_of_get_none {α : Type} (Z : Mat α) (idx : List (Option Nat)) :
    ∀ (n k : Nat) (M : Mat α) (t : Nat), idx.get? k = some none →
      ((List.enumFrom n idx).foldl (elevStep Z) M).data t (n + k) = M.data t (n + k) := by
  induction idx with
  | nil => intro n k M t h; cases h
  | cons a tl ih =>
    intro n k M t h
    rw [List.enumFrom_cons, List.foldl_cons]
    cases k with
    | zero =>
      have ha : a = none := by
        rw [List.get?_cons_zero] at h
        exact Option.some.inj h
      subst ha
      have hnot : ∀ p ∈ List.enumFrom (n + 1) tl, p.1 ≠ n := by
        intro p hp
        have := enumFrom_fst_ge tl (n + 1) p hp
        omega
      simp only [Nat.add_zero]
      rw [elevFold_data_of_notMem Z _ _ t n hnot]
      rfl
    | succ k' =>
      rw [List.get?_cons_succ] at h
      have hidx : n + (k' + 1) = (n + 1) + k' := by omega
      rw [hidx, ih (n + 1) k' (elevStep Z M (n, a)) t h]
      have hne : (n + 1) + k' ≠ n := by omega
      cases a <;> simp [elevStep, setCol, hne]

/-! ## Claims about `getSurfaceElevation` -/

/-- C6: for every 2-D input array `Z` of shape `(time-steps, spatial-points)`
and every index list `idx` of length `K`, the array returned by
`getSurfaceElevation` has shape `(time-steps, K)`, including when `K = 0`. -/
theorem getSurfaceElevation_shape {α : Type} (Z : Mat α) (idx : List (Option Nat))
    (init : Nat → Nat → α) :
    (getSurfaceElevation Z idx init).nt = Z.nt ∧
      (getSurfaceElevation Z idx init).nx = idx.length :=
  ⟨elevFold_nt Z idx.enum _, elevFold_nx Z idx.enum _⟩

/-- C5: for every 2-D input array `Z` and index list `idx`, at every position
`c` of `idx` holding a valid (non-NaN) spatial index `j`, output column `c`
of `getSurfaceElevation` equals input column `j` of `Z`,
element-for-element. -/
theorem getSurfaceElevation_valid_column {α : Type} (Z : Mat α) (idx : List (Option Nat))
    (init : Nat → Nat → α) (c j : Nat) (h : idx.get? c = some (some j)) :
    ∀ t, (getSurfaceElevation Z idx init).data t c = Z.data t j := by
  intro t
  have hh := elevFold_data_of_get_some Z idx 0 c ⟨Z.nt, idx.length, init⟩ t j h
  simpa [getSurfaceElevation, List.enum, Nat.zero_add] using hh

/-- Concrete 3×10 elevation array used by witnesses. -/
def Zex : Mat Int := ⟨3, 10, fun t j => (t : Int) + j⟩

theorem getSurfaceElevation_valid_column_witness :
    ([some 7, none] : List (Option Nat)).get? 0 = some (some 7) ∧
      (getSurfaceElevation Zex [some 7, none] (fun _ _ => 0)).data 2 0 = Zex.data 2 7 :=
  ⟨rfl, getSurfaceElevation_valid_column Zex [some 7, none] (fun _ _ => 0) 0 7 rfl 2⟩

/-- C1 as stated is false on the code: `np.empty` does *not* initialize the
output buffer to NaN, so a column whose `idx` entry is the NaN marker holds
whatever the freshly allocated buffer held.  Concretely, when the buffer's
initial contents are zeros, the missing column stays zero, not NaN. -/
theorem getSurfaceElevation_missing_not_nan :
    ¬ (∀ t, t < 2 → (getSurfaceElevation (⟨2, 3, fun _ _ => some 5⟩ : Mat (Option Int))
        [none] (fun _ _ => some 0)).data t 0 = none) := by
  intro h
  have hh := h 0 (by decide)
  simp [getSurfaceElevation, List.enum, List.enumFrom, elevStep] at hh

/-- C1 (amended): at every position `c` of `idx` holding the NaN marker,
output column `c` of `getSurfaceElevation` is left exactly at the initial
contents of the uninitialized buffer allocated by `np.empty`; it is not
guaranteed to be NaN. -/
theorem getSurfaceElevation_missing_column {α : Type} (Z : Mat α) (idx : List (Option Nat))
    (init : Nat → Nat → α) (c : Nat) (h : idx.get? c = some none) :
    ∀ t, (getSurfaceElevation Z idx init).data t c = init t c := by
  intro t
  have hh := elevFold_data_of_get_none Z idx 0 c ⟨Z.nt, idx.length, init⟩ t h
  simpa [getSurfaceElevation, List.enum, Nat.zero_add] using hh

theorem getSurfaceElevation_missing_column_witness :
    ([some 7, none] : List (Option Nat)).get? 1 = some none ∧
      (getSurfaceElevation Zex [some 7, none] (fun _ _ => (42 : Int))).data 2 1 = 42 :=
  ⟨rfl, getSurfaceElevation_missing_column Zex [some 7, none] (fun _ _ => (42 : Int)) 1 rfl 2⟩

/-! ## Data model for `readFVCOM` -/

/-- The evaluated meaning of a clip string: either a half-open range
`'lo:hi'` or an explicit index list `'[i, j, k]'`. -/
inductive ClipVal where
  | range (lo hi : Nat)
  | indices (l : List Nat)
deriving DecidableEq, Repr

/-- A NetCDF variable's underlying multi-dimensional array: a shape and the
entry at each index tuple. -/
structure NDArray (α : Type) where
  shape : List Nat
  data : List Nat → α

/-- A NetCDF variable: its declared, ordered dimension-name tuple
(`rootgrp.variables[key].dimensions`) and its array. -/
structure NCVar (α : Type) where
  dimensions : List String
  data : NDArray α

/-- A NetCDF dataset (`rootgrp`): file format, declared dimensions
(name, extent) and declared variables (name, variable); `vars` models
`rootgrp.variables` (`variables` is a reserved word in Lean 4). -/
structure Dataset (α : Type) where
  fileFormat : String
  dimensions : List (String × Nat)
  vars : List (String × NCVar α)

/-- Python dict lookup on an association list (first binding wins). -/
def lookupD {β : Type} (l : List (String × β)) (k : String) : Option β :=
  (l.find? (fun p => p.1 == k)).map (fun p => p.2)

/-- The list of source indices a clip specification selects along an axis of
the given extent, following NumPy slicing: a range `lo:hi` is clamped to the
extent, an explicit index list is taken as is. -/
def ClipVal.sel : ClipVal → Nat → List Nat
  | .range lo hi, extent => ((List.range extent).take hi).drop lo
  | .indices l, _ => l

/-- Multi-dimensional slicing `A[spec₀, spec₁, ...]` as performed by the
`eval`-ed composite slice expression: along each axis keep the selected
indices. -/
def NDArray.slice {α : Type} (A : NDArray α) (specs : List ClipVal) : NDArray α :=
  ⟨((specs.zip A.shape).map (fun p => p.1.sel p.2)).map List.length,
   fun ix => A.data ((((specs.zip A.shape).map (fun p => p.1.sel p.2)).zip ix).map
      (fun p => p.1.getD p.2 0))⟩

/-- Rendering of one clip value inside the diagnostic message, mirroring the
Python `str(toExtract).replace("'", "")` formatting. -/
def ClipVal.render : ClipVal → String
  | .range lo hi => toString lo ++ ":" ++ toString hi
  | .indices l => "[" ++ String.intercalate ", " (l.map toString) ++ "]"

/-- `str(toExtract)` with the quotes stripped. -/
def extractStr (l : List ClipVal) : String :=
  "[" ++ String.intercalate ", " (l.map ClipVal.render) ++ "]"

/-- The resolved per-dimension clip mapping: every declared dimension starts
at its full range `'0:' + str(len(var))`; then every dimension name shared
with `clipDims` is overwritten with the caller's value (`commonKeys`
intersection loop).  `clipDims = none` models the default `clipDims=False`. -/
def resolvedDims {α : Type} (ds : Dataset α)
    (clipDims : Option (List (String × ClipVal))) : List (String × ClipVal) :=
  let dims0 := ds.dimensions.map (fun p => (p.1, ClipVal.range 0 p.2))
  match clipDims with
  | none => dims0
  | some cd => dims0.map (fun p =>
      match lookupD cd p.1 with
      | some v => (p.1, v)
      | none => p)

/-- `toExtract`: the clip value of each of the variable's own declared
dimensions, looked up in their declared order.  On a well-formed NetCDF file
every dimension of a variable is declared, so the default of the total
lookup is never reached (in Python a missing key would raise `KeyError`). -/
def varSpecs {α : Type} (dims : List (String × ClipVal)) (v : NCVar α) : List ClipVal :=
  v.dimensions.map (fun d => (lookupD dims d).getD (ClipVal.range 0 0))

/-- One iteration of the `for key, var in rootgrp.variables.iteritems()`
loop: accumulate the extracted arrays (first component) and the diagnostic
output (second component). -/
def processVar {α : Type} (dims : List (String × ClipVal)) (varList : List String)
    (noisy : Bool) (acc : List (String × NDArray α) × List String)
    (p : String × NCVar α) : List (String × NDArray α) × List String :=
  if p.1 ∈ varList then
    (acc.1 ++ [(p.1, p.2.data.slice (varSpecs dims p.2))],
     acc.2 ++ (if noisy then
        ["Found " ++ p.1,
         if (extractStr (varSpecs dims p.2)).length < 60 then
           "(extracted " ++ extractStr (varSpecs dims p.2) ++ ")"
         else "(extracted given nodes)"]
      else []))
  else
    (acc.1, acc.2 ++ (if noisy then ["Found " ++ p.1] else []))

/-- `readFVCOM(file, varList, clipDims, noisy)`.  Returns the extracted
mapping (`FVCOM` dict as an ordered association list) together with the
diagnostic output produced when `noisy` is set. -/
def readFVCOM {α : Type} (ds : Dataset α) (varList : List String)
    (clipDims : Option (List (String × ClipVal))) (noisy : Bool) :
    List (String × NDArray α) × List String :=
  ds.vars.foldl (processVar (resolvedDims ds clipDims) varList noisy)
    ([], if noisy then ["File format: " ++ ds.fileFormat] else [])

/-- The data component of `readFVCOM` in closed form: the requested
variables in file order, each sliced by the resolved clip values of its own
declared dimensions. -/
def readFVCOMData {α : Type} (ds : Dataset α) (varList : List String)
    (clipDims : Option (List (String × ClipVal))) : List (String × NDArray α) :=
  (ds.vars.filter (fun p => decide (p.1 ∈ varList))).map
    (fun p => (p.1, p.2.data.slice (varSpecs (resolvedDims ds clipDims) p.2)))

/-- Lookup of a dimension in the optional caller clip specification. -/
def clipLookup (clipDims : Option (List (String × ClipVal))) (d : String) :
    Option ClipVal :=
  match clipDims with
  | none => none
  | some cd => lookupD cd d

/-- The caller-supplied specification read back as the list of selected
indices, following the spec's words: a range `lo:hi` means the indices
`lo, lo+1, ..., hi-1`; an explicit list means exactly those indices. -/
def ClipVal.specIndices : ClipVal → List Nat
  | .range lo hi => (List.range hi).drop lo
  | .indices l => l

/-- Validity of a clip specification against a declared extent: a range must
be well-ordered and stay inside the extent, explicit indices must be in
range.  (NumPy silently clamps an overlong range and raises on an
out-of-range index; the claims quantify over meaningful specifications.) -/
def ClipVal.valid : ClipVal → Nat → Prop
  | .range lo hi, n => lo ≤ hi ∧ hi ≤ n
  | .indices l, n => ∀ j ∈ l, j < n

instance (c : ClipVal) (n : Nat) : Decidable (c.valid n) :=
  match c with
  | .range lo hi => inferInstanceAs (Decidable (lo ≤ hi ∧ hi ≤ n))
  | .indices l => inferInstanceAs (Decidable (∀ j ∈ l, j < n))

/-- `readFVCOM` behind its import guard: `from netCDF4 import Dataset` either
succeeds or raises `ImportError('Failed to load the NetCDF4 library')`
before anything else happens. -/
def readFVCOMChecked {α : Type} (hasNetCDF4 : Bool) (ds : Dataset α)
    (varList : List String) (clipDims : Option (List (String × ClipVal)))
    (noisy : Bool) : Except String (List (String × NDArray α) × List String) :=
  if hasNetCDF4 then Except.ok (readFVCOM ds varList clipDims noisy)
  else Except.error "Failed to load the NetCDF4 library"

/-- `getSurfaceElevation` behind its import guard: `import numpy as np`
either succeeds or raises `ImportError('NumPy not found')` first. -/
def getSurfaceElevationChecked {α : Type} (hasNumPy : Bool) (Z : Mat α)
    (idx : List (Option Nat)) (init : Nat → Nat → α) : Except String (Mat α) :=
  if hasNumPy then Except.ok (getSurfaceElevation Z idx init)
  else Except.error "NumPy not found"

/-! ## Helper lemmas for `readFVCOM` -/

theorem lookupD_cons {β : Type} (a : String × β) (l : List (String × β)) (k : String) :
    lookupD (a :: l) k = if a.1 == k then some a.2 else lookupD l k := by
  cases h : a.1 == k <;> simp [lookupD, List.find?, h]

theorem lookupD_eq_of_mem {β : Type} {l : List (String × β)} {k : String} {b : β}
    (hnd : (l.map Prod.fst).Nodup) (hmem : (k, b) ∈ l) : lookupD l k = some b := by
  induction l with
  | nil => cases hmem
  | cons a t ih =>
    simp only [List.map_cons, List.nodup_cons] at hnd
    rcases List.mem_cons.mp hmem with h | h
    · rw [lookupD_cons, ← h]
      simp
    · have hk : ¬ (a.1 == k) = true := by
        intro hbe
        have he : a.1 = k := beq_iff_eq.mp hbe
        exact hnd.1 (he ▸ List.mem_map.mpr ⟨(k, b), h, rfl⟩)
      rw [lookupD_cons, if_neg hk]
      exact ih hnd.2 h

theorem lookupD_perm {β : Type} {k : String} {l l' : List (String × β)}
    (hp : l.Perm l') : (l.map Prod.fst).Nodup → lookupD l k = lookupD l' k := by
  induction hp with
  | nil => intro _; rfl
  | cons x _ ih =>
    intro hnd
    simp only [List.map_cons, List.nodup_cons] at hnd
    rw [lookupD_cons, lookupD_cons]
    cases h : x.1 == k
    · rw [if_neg (by simp [h]), if_neg (by simp [h])]
      exact ih hnd.2
    · rfl
  | swap x y t =>
    intro hnd
    simp only [List.map_cons, List.nodup_cons] at hnd
    have hne : y.1 ≠ x.1 := by
      intro he
      exact hnd.1 (he ▸ List.mem_cons_self _ _)
    rw [lookupD_cons, lookupD_cons, lookupD_cons, lookupD_cons]
    cases hy : y.1 == k <;> cases hx : x.1 == k <;> simp [hy, hx]
    exact absurd ((beq_iff_eq.mp hy).trans (beq_iff_eq.mp hx).symm) hne
  | trans h1 _ ih1 ih2 =>
    intro hnd
    rw [ih1 hnd, ih2 (((h1.map Prod.fst).nodup_iff).mp hnd)]

theorem resolvedDims_keys {α : Type} (ds : Dataset α)
    (cd : Option (List (String × ClipVal))) :
    (resolvedDims ds cd).map Prod.fst = ds.dimensions.map Prod.fst := by
  unfold resolvedDims
  cases cd with
  | none =>
    simp only [List.map_map]
    rfl
  | some cd' =>
    simp only [List.map_map]
    apply List.map_congr_left
    intro p _
    cases h : lookupD cd' p.1 <;> simp [h]

theorem lookupD_resolvedDims {α : Type} (ds : Dataset α)
    (cd : Option (List (String × ClipVal))) {d : String} {n : Nat}
    (hnd : (ds.dimensions.map Prod.fst).Nodup) (hmem : (d, n) ∈ ds.dimensions) :
    lookupD (resolvedDims ds cd) d
      = some ((clipLookup cd d).getD (ClipVal.range 0 n)) := by
  have hnd' : ((resolvedDims ds cd).map Prod.fst).Nodup := by
    rw [resolvedDims_keys]; exact hnd
  apply lookupD_eq_of_mem hnd'
  unfold resolvedDims clipLookup
  cases cd with
  | none => exact List.mem_map.mpr ⟨(d, n), hmem, rfl⟩
  | some cd' =>
    simp only [List.map_map]
    cases h : lookupD cd' d with
    | none => exact List.mem_map.mpr ⟨(d, n), hmem, by simp [h]⟩
    | some v => exact List.mem_map.mpr ⟨(d, n), hmem, by simp [h]⟩

theorem readFVCOM_foldl_fst {α : Type} (dims : List (String × ClipVal))
    (varList : List String) (noisy : Bool) (vars : List (String × NCVar α)) :
    ∀ (d0 : List (String × NDArray α)) (l0 : List String),
      (vars.foldl (processVar dims varList noisy) (d0, l0)).1
        = d0 ++ (vars.filter (fun p => decide (p.1 ∈ varList))).map
            (fun p => (p.1, p.2.data.slice (varSpecs dims p.2))) := by
  induction vars with
  | nil => intro d0 l0; simp
  | cons p t ih =>
    intro d0 l0
    rw [List.foldl_cons]
    by_cases hp : p.1 ∈ varList
    · simp only [processVar, if_pos hp]
      rw [ih]
      simp [List.filter_cons, hp]
    · simp only [processVar, if_neg hp]
      rw [ih]
      simp [List.filter_cons, hp]

/-- The `FVCOM` mapping returned by `readFVCOM`, in closed form. -/
theorem readFVCOM_fst {α : Type} (ds : Dataset α) (varList : List String)
    (clipDims : Option (List (String × ClipVal))) (noisy : Bool) :
    (readFVCOM ds varList clipDims noisy).1 = readFVCOMData ds varList clipDims := by
  unfold readFVCOM readFVCOMData
  rw [readFVCOM_foldl_fst]
  simp

theorem zip_get?_eq {β γ : Type} :
    ∀ (l1 : List β) (l2 : List γ) (i : Nat) (b : β) (c : γ),
      l1.get? i = some b → l2.get? i = some c → (l1.zip l2).get? i = some (b, c) := by
  intro l1
  induction l1 with
  | nil => intro l2 i b c h1 _; simp at h1
  | cons a t ih =>
    intro l2 i b c h1 h2
    cases l2 with
    | nil => simp at h2
    | cons a2 t2 =>
      cases i with
      | zero =>
        rw [List.get?_cons_zero] at h1 h2
        rw [List.zip_cons_cons, List.get?_cons_zero, Option.some.inj h1, Option.some.inj h2]
      | succ i' =>
        rw [List.get?_cons_succ] at h1 h2
        rw [List.zip_cons_cons, List.get?_cons_succ]
        exact ih t2 i' b c h1 h2

/-- Shape of a sliced array, axis by axis: the number of indices the clip
specification selects against that axis's extent. -/
theorem slice_shape_get {α : Type} (A : NDArray α) (specs : List ClipVal) (i : Nat)
    {s : ClipVal} {n : Nat} (hs : specs.get? i = some s) (hn : A.shape.get? i = some n) :
    (A.slice specs).shape.get? i = some (s.sel n).length := by
  unfold NDArray.slice
  simp only [List.get?_map]
  rw [zip_get?_eq specs A.shape i s n hs hn]
  rfl

/-- A valid clip specification selects exactly the indices it names. -/
theorem sel_of_valid (c : ClipVal) (n : Nat) (h : c.valid n) : c.sel n = c.specIndices := by
  cases c with
  | range lo hi =>
    simp only [ClipVal.sel, ClipVal.specIndices]
    rw [List.take_range hi n, Nat.min_eq_left h.2]
  | indices l => rfl

/-- The default full-range specification selects every index of the axis. -/
theorem sel_full_range (n : Nat) : (ClipVal.range 0 n).sel n = List.range n := by
  simp only [ClipVal.sel]
  rw [List.take_range n n, Nat.min_self, List.drop_zero]

/-! ## Claims about `readFVCOM` -/

/-- C2: for every file and requested variable-name list, the key set of the
mapping returned by `readFVCOM` equals the intersection of `varList` with
the set of variable names declared in the file. -/
theorem readFVCOM_keys {α : Type} (ds : Dataset α) (varList : List String)
    (clipDims : Option (List (String × ClipVal))) (noisy : Bool) (k : String) :
    k ∈ (readFVCOM ds varList clipDims noisy).1.map Prod.fst ↔
      (k ∈ ds.vars.map Prod.fst ∧ k ∈ varList) := by
  rw [readFVCOM_fst]
  unfold readFVCOMData
  simp only [List.map_map, List.mem_map, List.mem_filter, decide_eq_true_eq,
    Function.comp]
  constructor
  · rintro ⟨p, ⟨hp, hin⟩, rfl⟩
    exact ⟨⟨p, hp, rfl⟩, hin⟩
  · rintro ⟨⟨p, hp, rfl⟩, hin⟩
    exact ⟨p, ⟨hp, hin⟩, rfl⟩

/-- C10: the verbosity flag `noisy` influences only the printed diagnostics,
never the returned mapping. -/
theorem readFVCOM_noisy_irrelevant {α : Type} (ds : Dataset α) (varList : List String)
    (clipDims : Option (List (String × ClipVal))) :
    (readFVCOM ds varList clipDims true).1 = (readFVCOM ds varList clipDims false).1 := by
  rw [readFVCOM_fst, readFVCOM_fst]

/-- C8: a clip-specification key that matches no declared dimension name is
silently ignored: the result of `readFVCOM` (mapping and diagnostics alike)
is the same as without that key. -/
theorem readFVCOM_ignores_unknown_key {α : Type} (ds : Dataset α) (varList : List String)
    (k : String) (v : ClipVal) (cd : List (String × ClipVal)) (noisy : Bool)
    (hk : k ∉ ds.dimensions.map Prod.fst) :
    readFVCOM ds varList (some ((k, v) :: cd)) noisy
      = readFVCOM ds varList (some cd) noisy := by
  have hres : resolvedDims ds (some ((k, v) :: cd)) = resolvedDims ds (some cd) := by
    unfold resolvedDims
    apply List.map_congr_left
    intro p hp
    have hne : k ≠ p.1 := by
      rcases List.mem_map.mp hp with ⟨q, hq, rfl⟩
      intro he
      exact hk (he ▸ List.mem_map.mpr ⟨q, hq, rfl⟩)
    rw [lookupD_cons, if_neg (by simpa using hne)]
  unfold readFVCOM
  rw [hres]

/-- C9: with the required capability absent, each function fails immediately
with its fixed import-error message, independent of all other arguments;
with the capability present the ordinary result is returned unchanged. -/
theorem import_guard_errors {α : Type} (ds : Dataset α) (varList : List String)
    (clipDims : Option (List (String × ClipVal))) (noisy : Bool) (Z : Mat α)
    (idx : List (Option Nat)) (init : Nat → Nat → α) :
    readFVCOMChecked false ds varList clipDims noisy
        = Except.error "Failed to load the NetCDF4 library"
      ∧ getSurfaceElevationChecked false Z idx init = Except.error "NumPy not found"
      ∧ readFVCOMChecked true ds varList clipDims noisy
          = Except.ok (readFVCOM ds varList clipDims noisy)
      ∧ getSurfaceElevationChecked true Z idx init
          = Except.ok (getSurfaceElevation Z idx init) :=
  ⟨rfl, rfl, rfl, rfl⟩

theorem varSpecs_get {α : Type} (dims : List (String × ClipVal)) (v : NCVar α)
    (i : Nat) {d : String} (hd : v.dimensions.get? i = some d) :
    (varSpecs dims v).get? i = some ((lookupD dims d).getD (ClipVal.range 0 0)) := by
  unfold varSpecs
  rw [List.get?_map, hd]
  rfl

/-- The entry the returned mapping holds for a requested variable: its array
sliced by the resolved clip values of its own declared dimensions, in their
declared order. -/
theorem lookupD_readFVCOM {α : Type} {ds : Dataset α} {varList : List String}
    {clipDims : Option (List (String × ClipVal))} {noisy : Bool} {name : String}
    {v : NCVar α} (hvnd : (ds.vars.map Prod.fst).Nodup) (hv : (name, v) ∈ ds.vars)
    (hin : name ∈ varList) :
    lookupD (readFVCOM ds varList clipDims noisy).1 name
      = some (v.data.slice (varSpecs (resolvedDims ds clipDims) v)) := by
  rw [readFVCOM_fst]
  unfold readFVCOMData
  apply lookupD_eq_of_mem
  · rw [List.map_map]
    exact List.Nodup.sublist ((List.filter_sublist ds.vars).map Prod.fst) hvnd
  · exact List.mem_map.mpr ⟨(name, v), List.mem_filter.mpr ⟨hv, by simp [hin]⟩, rfl⟩

/-- C3: for a dimension named both in the caller's clip specification and in
the file, every returned variable declaring that dimension at position `i`
has, along axis `i`, exactly the caller-specified extent and exactly the
caller-specified indices. -/
theorem readFVCOM_clipped_dim {α : Type} (ds : Dataset α) (varList : List String)
    (cd : List (String × ClipVal)) (noisy : Bool) (name : String) (v : NCVar α)
    (i : Nat) (d : String) (n : Nat) (s : ClipVal)
    (hvnd : (ds.vars.map Prod.fst).Nodup) (hv : (name, v) ∈ ds.vars)
    (hin : name ∈ varList) (hdnd : (ds.dimensions.map Prod.fst).Nodup)
    (hd : v.dimensions.get? i = some d) (hext : (d, n) ∈ ds.dimensions)
    (hclip : lookupD cd d = some s) (hval : s.valid n)
    (hshape : v.data.shape.get? i = some n) :
    ∃ A, lookupD (readFVCOM ds varList (some cd) noisy).1 name = some A
      ∧ A.shape.get? i = some s.specIndices.length
      ∧ (((varSpecs (resolvedDims ds (some cd)) v).zip v.data.shape).map
          (fun p => p.1.sel p.2)).get? i = some s.specIndices := by
  have hspec : (varSpecs (resolvedDims ds (some cd)) v).get? i = some s := by
    rw [varSpecs_get _ _ i hd, lookupD_resolvedDims ds (some cd) hdnd hext]
    simp [clipLookup, hclip]
  refine ⟨_, lookupD_readFVCOM hvnd hv hin, ?_, ?_⟩
  · rw [slice_shape_get _ _ i hspec hshape, sel_of_valid s n hval]
  · rw [List.get?_map, zip_get?_eq _ _ i s n hspec hshape]
    simp [sel_of_valid s n hval]

/-- C4: a dimension of the file not named in the clip specification (also
when no clip specification is supplied at all) keeps its full declared
extent in every returned variable. -/
theorem readFVCOM_unclipped_dim {α : Type} (ds : Dataset α) (varList : List String)
    (clipDims : Option (List (String × ClipVal))) (noisy : Bool) (name : String)
    (v : NCVar α) (i : Nat) (d : String) (n : Nat)
    (hvnd : (ds.vars.map Prod.fst).Nodup) (hv : (name, v) ∈ ds.vars)
    (hin : name ∈ varList) (hdnd : (ds.dimensions.map Prod.fst).Nodup)
    (hd : v.dimensions.get? i = some d) (hext : (d, n) ∈ ds.dimensions)
    (hclip : clipLookup clipDims d = none)
    (hshape : v.data.shape.get? i = some n) :
    ∃ A, lookupD (readFVCOM ds varList clipDims noisy).1 name = some A
      ∧ A.shape.get? i = some n := by
  have hspec : (varSpecs (resolvedDims ds clipDims) v).get? i
      = some (ClipVal.range 0 n) := by
    rw [varSpecs_get _ _ i hd, lookupD_resolvedDims ds clipDims hdnd hext, hclip]
    rfl
  refine ⟨_, lookupD_readFVCOM hvnd hv hin, ?_⟩
  rw [slice_shape_get _ _ i hspec hshape, sel_full_range n]
  simp

/-- C7: the composite slice of each requested variable is built by looking
up the resolved clip entry of each of the variable's own declared dimensions
in their declared order, and the outcome is unchanged under any reordering
(permutation) of the file's dimension and variable mappings. -/
theorem readFVCOM_dim_order {α : Type} (ds ds' : Dataset α) (varList : List String)
    (clipDims : Option (List (String × ClipVal))) (noisy : Bool) (name : String)
    (v : NCVar α)
    (hvnd : (ds.vars.map Prod.fst).Nodup) (hdnd : (ds.dimensions.map Prod.fst).Nodup)
    (hv : (name, v) ∈ ds.vars) (hin : name ∈ varList)
    (hpv : ds'.vars.Perm ds.vars) (hpd : ds'.dimensions.Perm ds.dimensions) :
    lookupD (readFVCOM ds' varList clipDims noisy).1 name
      = some (v.data.slice (v.dimensions.map
          (fun d => (lookupD (resolvedDims ds clipDims) d).getD (ClipVal.range 0 0)))) := by
  have hvnd' : (ds'.vars.map Prod.fst).Nodup := ((hpv.map Prod.fst).nodup_iff).mpr hvnd
  have hv' : (name, v) ∈ ds'.vars := hpv.mem_iff.mpr hv
  rw [lookupD_readFVCOM hvnd' hv' hin]
  have hperm : (resolvedDims ds' clipDims).Perm (resolvedDims ds clipDims) := by
    unfold resolvedDims
    cases clipDims with
    | none => exact hpd.map _
    | some cdl => exact (hpd.map _).map _
  have hknd : ((resolvedDims ds' clipDims).map Prod.fst).Nodup := by
    rw [resolvedDims_keys]
    exact ((hpd.map Prod.fst).nodup_iff).mpr hdnd
  have hsp : varSpecs (resolvedDims ds' clipDims) v
      = v.dimensions.map
          (fun d => (lookupD (resolvedDims ds clipDims) d).getD (ClipVal.range 0 0)) := by
    unfold varSpecs
    apply List.map_congr_left
    intro d _
    rw [lookupD_perm hperm hknd]
  rw [hsp]

/-! ## Scenario datasets and witnesses -/

/-- The spec's scenario variable `zeta`, declared over (time, node). -/
def zetaVar : NCVar Int := ⟨["time", "node"], ⟨[500, 1000], fun _ => 0⟩⟩

/-- The spec's scenario file: dimensions time=500 and node=1000, one
variable `zeta`. -/
def scenarioDS : Dataset Int :=
  ⟨"NETCDF3_CLASSIC", [("time", 500), ("node", 1000)], [("zeta", zetaVar)]⟩

/-- `scenarioDS` with its dimension mapping listed in the opposite order. -/
def scenarioDS2 : Dataset Int :=
  ⟨"NETCDF3_CLASSIC", [("node", 1000), ("time", 500)], [("zeta", zetaVar)]⟩

theorem readFVCOM_clipped_dim_witness :
    (ClipVal.range 0 100).valid 500 ∧
      ∃ A, lookupD (readFVCOM scenarioDS ["zeta"]
            (some [("time", ClipVal.range 0 100)]) false).1 "zeta" = some A
        ∧ A.shape.get? 0 = some (ClipVal.range 0 100).specIndices.length
        ∧ (((varSpecs (resolvedDims scenarioDS (some [("time", ClipVal.range 0 100)]))
              zetaVar).zip zetaVar.data.shape).map (fun p => p.1.sel p.2)).get? 0
            = some (ClipVal.range 0 100).specIndices :=
  ⟨by decide,
   readFVCOM_clipped_dim scenarioDS ["zeta"] [("time", ClipVal.range 0 100)] false "zeta"
     zetaVar 0 "time" 500 (ClipVal.range 0 100)
     (by decide) (by simp [scenarioDS]) (by decide) (by decide) rfl (by decide)
     (by decide) (by decide) rfl⟩

theorem readFVCOM_unclipped_dim_witness :
    clipLookup none "node" = none ∧
      ∃ A, lookupD (readFVCOM scenarioDS ["zeta"] none false).1 "zeta" = some A
        ∧ A.shape.get? 1 = some 1000 :=
  ⟨rfl,
   readFVCOM_unclipped_dim scenarioDS ["zeta"] none false "zeta" zetaVar 1 "node" 1000
     (by decide) (by simp [scenarioDS]) (by decide) (by decide) rfl (by decide) rfl rfl⟩

theorem readFVCOM_dim_order_witness :
    scenarioDS2.dimensions.Perm scenarioDS.dimensions ∧
      lookupD (readFVCOM scenarioDS2 ["zeta"]
            (some [("time", ClipVal.range 0 100)]) false).1 "zeta"
        = some (zetaVar.data.slice (zetaVar.dimensions.map
            (fun d => (lookupD (resolvedDims scenarioDS
                (some [("time", ClipVal.range 0 100)])) d).getD (ClipVal.range 0 0)))) :=
  ⟨by decide,
   readFVCOM_dim_order scenarioDS scenarioDS2 ["zeta"]
     (some [("time", ClipVal.range 0 100)]) false "zeta" zetaVar
     (by decide) (by decide) (by simp [scenarioDS]) (by decide)
     (List.Perm.refl _) (by decide)⟩

theorem readFVCOM_ignores_unknown_key_witness :
    ("bogus" ∉ scenarioDS.dimensions.map Prod.fst) ∧
      readFVCOM scenarioDS ["zeta"]
          (some (("bogus", ClipVal.indices [0, 1]) :: [("time", ClipVal.range 0 100)])) false
        = readFVCOM scenarioDS ["zeta"] (some [("time", ClipVal.range 0 100)]) false :=
  ⟨by decide,
   readFVCOM_ignores_unknown_key scenarioDS ["zeta"] "bogus" (ClipVal.indices [0, 1])
     [("time", ClipVal.range 0 100)] false (by decide)⟩
